import Mathlib

/-!
# Function-level `defer` by return-address interception (`src/src/defer.h`)

A shallow embedding of the three pieces of `defer.h`

* `defer_impl::defer_impl`   (the declaration: hijack installer + push),
* `execute_deferred_task`    (the drain),
* `defer_trampoline`         (the x86-64 stub returned into by the hijacked frame),

over an explicit machine state: the two `thread_local` variables, the stack
memory that holds return-address slots, the registers `%rax` / `%rsp` the
trampoline touches, and the trace of stores performed by user code.

Stored callables (`std::function<void()>`) and function bodies are given as
straight-line `Code`; running a callable can itself declare tasks, so the drain
loop is recursive and is defined with fuel.

Conventions. The `assert`s of `defer_impl` are enabled (no `NDEBUG`) and a
failed one ends the run with the state at that point. The trampoline follows
the x86-64 branch of the `#if`; the AArch64 branch has the same shape, with
`x0` in the role of `%rax` (`bl` leaves the returned address in `x0`, `br x0`
jumps to it). Addresses are natural numbers below `2 ^ 64 - 8`, so the pointer
addition in `defer_impl` does not wrap.
-/

namespace Defer

/-- Machine addresses (`void*`); `nullptr` is `0`. -/
abbrev Addr := Nat

/-- The null pointer. -/
def nullptr : Addr := 0

/-- Width of a pointer in bytes, `sizeof(void*)`, on x86-64 and AArch64. -/
def sizeof_ptr : Nat := 8

/-- Straight-line code of a function body or of a stored callable.
Every constructor but `ret` carries the code that follows it. -/
inductive Code where
  /-- The function executes its return instruction. -/
  | ret : Code
  /-- Store `val` into the caller-owned variable `var` (for a log: push an entry). -/
  | write (var : Nat) (val : Int) (k : Code) : Code
  /-- Read `defer_private::final_return_address` into the variable `var` (the
  header declares it at namespace scope, visible to the code that includes it). -/
  | peek (var : Nat) (k : Code) : Code
  /-- Load the function result into the return-value register. -/
  | mov_rax (val : Nat) (k : Code) : Code
  /-- Closing brace of a nested block: the block's `defer_impl` objects are destroyed. -/
  | scope_end (k : Code) : Code
  /-- The statement `defer task;`. -/
  | defer (task : Code) (k : Code) : Code
  deriving DecidableEq, Repr

/-- Addresses fixed by the build: the trampoline's entry and the frame in which
`execute_deferred_task` invokes a stored callable. -/
structure Platform where
  /-- Value of `(void*)&defer_trampoline`. -/
  defer_trampoline : Addr
  /-- Frame base the stored callable runs with when called by `task()`. -/
  task_frame : Addr
  /-- Return address of the call `task()` inside the drain loop. -/
  task_return : Addr

/-- Machine state seen by one thread. -/
structure State where
  /-- The vector `thread_local deferred_task_stack`; its back is the last element. -/
  deferred_task_stack : List Code
  /-- The pointer `thread_local final_return_address`. -/
  final_return_address : Addr
  /-- Stack memory, one pointer-sized word per address. -/
  mem : Addr → Addr
  /-- Stores performed by user code so far, oldest first. -/
  trace : List (Nat × Int)
  /-- Return-value register `%rax`. -/
  rax : Nat
  /-- Stack pointer `%rsp`. -/
  rsp : Nat

/-- Outcome of running code: normal completion, the process aborted (a failed
`assert`, or `std::terminate`; with the state at the abort), a jump to an
address that is not the expected return site, or exhausted fuel. -/
inductive Run (α : Type) where
  | done (a : α) : Run α
  | aborted (s : State) : Run α
  | wild (s : State) (pc : Addr) : Run α
  | out_of_fuel : Run α

/-- Sequencing of outcomes: only `done` continues. -/
def Run.bind {α β : Type} : Run α → (α → Run β) → Run β
  | .done a, f => f a
  | .aborted s, _ => .aborted s
  | .wild s pc, _ => .wild s pc
  | .out_of_fuel, _ => .out_of_fuel

/-- Constructor `defer_impl::defer_impl(F&& f)`, inlined into the declaring
function, whose frame base is `current_frame_address`
(`__builtin_frame_address(0)`) and whose return address as reported by
`__builtin_return_address(0)` is `original_return_address`. -/
def defer_impl (P : Platform) (current_frame_address original_return_address : Addr)
    (f : Code) (s : State) : Run State :=
  if s.final_return_address = nullptr then
    if current_frame_address = nullptr then .aborted s
    else if original_return_address = nullptr then .aborted s
    else
      let return_address_ptr_on_stack := current_frame_address + sizeof_ptr
      if s.mem return_address_ptr_on_stack ≠ original_return_address then .aborted s
      else
        let s1 := { s with final_return_address := original_return_address }
        let s2 := { s1 with
          mem := Function.update s1.mem return_address_ptr_on_stack P.defer_trampoline }
        .done { s2 with deferred_task_stack := s2.deferred_task_stack ++ [f] }
  else
    .done { s with deferred_task_stack := s.deferred_task_stack ++ [f] }

/-- Body of a function up to (not including) its return instruction, executed
in the frame `(fp, ra)`. The class `defer_impl` declares no destructor, so
`scope_end` runs nothing. -/
def run_body (P : Platform) (fp ra : Addr) : Code → State → Run State
  | .ret, s => .done s
  | .write x v k, s => run_body P fp ra k { s with trace := s.trace ++ [(x, v)] }
  | .peek x k, s =>
      run_body P fp ra k { s with trace := s.trace ++ [(x, (s.final_return_address : Int))] }
  | .mov_rax v k, s => run_body P fp ra k { s with rax := v }
  | .scope_end k, s => run_body P fp ra k s
  | .defer t k, s => (defer_impl P fp ra t s).bind (run_body P fp ra k)

/-- Function entry: the call instruction pushes the return address `ra` and the
prologue sets the frame base `fp` one pointer below it. -/
def enter (fp ra : Addr) (s : State) : State :=
  { s with mem := Function.update s.mem (fp + sizeof_ptr) ra }

/-- Function `execute_deferred_task`, with the while loop given as `loop`. -/
def execute_deferred_task_with (loop : State → Run State) (s : State) : Run (State × Addr) :=
  let return_address := s.final_return_address
  let s1 := { s with final_return_address := nullptr }
  (loop s1).bind fun s2 => .done (s2, return_address)

/-- The x86-64 body of `defer_trampoline`; the result is the machine state at
the final jump together with the jump target. -/
def defer_trampoline_with (loop : State → Run State) (s : State) : Run (State × Addr) :=
  -- subq $8, %rsp
  let s1 := { s with rsp := (s.rsp + 2 ^ 64 - 8) % 2 ^ 64 }
  -- call execute_deferred_task: the result is returned in %rax
  (execute_deferred_task_with loop s1).bind fun r =>
    let s2 := { r.1 with rax := r.2 }
    -- addq $8, %rsp
    let s3 := { s2 with rsp := (s2.rsp + 8) % 2 ^ 64 }
    -- jmp *%rax
    .done (s3, s3.rax)

/-- The return instruction of the frame with base `fp`: control goes to the
address stored in the frame's return-address slot; when that is the
trampoline, the trampoline runs and jumps on. The result is the state and the
address at which the caller's side resumes. -/
def function_return_with (P : Platform) (loop : State → Run State) (fp : Addr) (s : State) :
    Run (State × Addr) :=
  let target := s.mem (fp + sizeof_ptr)
  if target = P.defer_trampoline then defer_trampoline_with loop s
  else .done (s, target)

/-- A complete call of `body` from the call site whose return address is `ra`,
in a frame with base `fp`, up to the moment control is back at `ra`. -/
def call_with (P : Platform) (loop : State → Run State) (fp ra : Addr) (body : Code)
    (s : State) : Run State :=
  (run_body P fp ra body (enter fp ra s)).bind fun s1 =>
    (function_return_with P loop fp s1).bind fun r =>
      if r.2 = ra then .done r.1 else .wild r.1 r.2

/-- The loop `while (!deferred_task_stack.empty())` of `execute_deferred_task`:
move out the back element, pop it, call it. -/
def drain_loop (P : Platform) : Nat → State → Run State
  | 0, _ => .out_of_fuel
  | fuel + 1, s =>
    match s.deferred_task_stack.getLast? with
    | none => .done s
    | some task =>
      let s1 := { s with deferred_task_stack := s.deferred_task_stack.dropLast }
      (call_with P (drain_loop P fuel) P.task_frame P.task_return task s1).bind
        (drain_loop P fuel)

/-- Function `execute_deferred_task` (Drain); yields the state and the returned address. -/
def execute_deferred_task (P : Platform) (fuel : Nat) (s : State) : Run (State × Addr) :=
  execute_deferred_task_with (drain_loop P fuel) s

/-- Function `defer_trampoline`. -/
def defer_trampoline (P : Platform) (fuel : Nat) (s : State) : Run (State × Addr) :=
  defer_trampoline_with (drain_loop P fuel) s

/-- Return instruction of the frame with base `fp`. -/
def function_return (P : Platform) (fuel : Nat) (fp : Addr) (s : State) : Run (State × Addr) :=
  function_return_with P (drain_loop P fuel) fp s

/-- A call of `body` that returns normally. -/
def call (P : Platform) (fuel : Nat) (fp ra : Addr) (body : Code) (s : State) : Run State :=
  call_with P (drain_loop P fuel) fp ra body s

/-- A call of `body` that leaves by `longjmp` to a `setjmp` made in a caller,
once `body` has run: the registers are restored from the jump buffer, the
frame's return instruction is not executed, no word of the frame is read, and
no code of `defer.h` runs on that path. -/
def call_longjmp (P : Platform) (fp ra : Addr) (body : Code) (s : State) : Run State :=
  run_body P fp ra body (enter fp ra s)

/-- A run of `execute_deferred_task` that is abandoned by the first task it
calls: the address has been saved and cleared and the back task moved out and
popped (lines 24 to 29), the task's body runs and then leaves by `longjmp` to a
`setjmp` made before the intercepted function was called, so the call `task()`
does not return and nothing after it is executed. With an empty registry no
task is called and the function runs to its end. -/
def execute_deferred_task_abandoned (P : Platform) (s : State) : Run State :=
  let s1 := { s with final_return_address := nullptr }
  match s1.deferred_task_stack.getLast? with
  | none => .done s1
  | some task =>
    call_longjmp P P.task_frame P.task_return task
      { s1 with deferred_task_stack := s1.deferred_task_stack.dropLast }

/-! ## Per-thread instances of the thread-local variables -/

/-- What each thread owns: its instances of the two `thread_local` variables
and its registers. -/
structure ThreadLocal where
  deferred_task_stack : List Code
  final_return_address : Addr
  rax : Nat
  rsp : Nat

/-- A process: one `ThreadLocal` per thread id, and the shared address space
and trace. -/
structure World where
  threads : Nat → ThreadLocal
  mem : Addr → Addr
  trace : List (Nat × Int)

/-- The machine state as thread `tid` sees it. -/
def World.view (w : World) (tid : Nat) : State :=
  { deferred_task_stack := (w.threads tid).deferred_task_stack
    final_return_address := (w.threads tid).final_return_address
    mem := w.mem
    trace := w.trace
    rax := (w.threads tid).rax
    rsp := (w.threads tid).rsp }

/-- The process after thread `tid` has moved its view to `s`. -/
def World.commit (w : World) (tid : Nat) (s : State) : World :=
  { threads := Function.update w.threads tid
      { deferred_task_stack := s.deferred_task_stack
        final_return_address := s.final_return_address
        rax := s.rax
        rsp := s.rsp }
    mem := s.mem
    trace := s.trace }

/-- Thread `tid` executes `defer f;` in the frame `(fp, ra)`. -/
def declare_on (P : Platform) (tid : Nat) (fp ra : Addr) (f : Code) (w : World) : Run World :=
  (defer_impl P fp ra f (w.view tid)).bind fun s => .done (w.commit tid s)

/-- Thread `tid` executes `execute_deferred_task`. -/
def drain_on (P : Platform) (fuel : Nat) (tid : Nat) (w : World) : Run (World × Addr) :=
  (execute_deferred_task P fuel (w.view tid)).bind fun r => .done (w.commit tid r.1, r.2)

/-- One declaration of a schedule: the declaring thread, its frame base and
return address, and the task. -/
structure Decl where
  tid : Nat
  fp : Addr
  ra : Addr
  task : Code

/-- The declarations of a schedule, executed in the given (interleaved) order. -/
def declare_all (P : Platform) : List Decl → World → Run World
  | [], w => .done w
  | d :: ds, w => (declare_on P d.tid d.fp d.ra d.task w).bind (declare_all P ds)

/-- The tasks a schedule declares on thread `tid`, in declaration order. -/
def tasks_of (tid : Nat) : List Decl → List Code
  | [] => []
  | d :: ds => if d.tid = tid then d.task :: tasks_of tid ds else tasks_of tid ds

/-! ## Vocabulary for stating what the code does -/

/-- The tasks a body declares, in declaration order. -/
def Code.declared : Code → List Code
  | .ret => []
  | .write _ _ k => k.declared
  | .peek _ k => k.declared
  | .mov_rax _ k => k.declared
  | .scope_end k => k.declared
  | .defer t k => t :: k.declared

/-- The stores a body performs itself when it starts with pending resume
address `p` in a frame whose return address is `ra` (a first declaration made
with `p` null sets the pending address to `ra`). -/
def Code.stores (ra : Addr) : Addr → Code → List (Nat × Int)
  | _, .ret => []
  | p, .write x v k => (x, v) :: k.stores ra p
  | p, .peek x k => (x, (p : Int)) :: k.stores ra p
  | p, .mov_rax _ k => k.stores ra p
  | p, .scope_end k => k.stores ra p
  | p, .defer _ k => k.stores ra (if p = nullptr then ra else p)

/-- The content of the return-value register when the body reaches its return
instruction, given its content `r` at entry. -/
def Code.result : Nat → Code → Nat
  | r, .ret => r
  | r, .write _ _ k => k.result r
  | r, .peek _ k => k.result r
  | _, .mov_rax v k => k.result v
  | r, .scope_end k => k.result r
  | r, .defer _ k => k.result r

/-- Code `a` followed by code `b`: the place of the final `ret` of `a` is taken by `b`. -/
def Code.seq : Code → Code → Code
  | .ret, b => b
  | .write x v k, b => .write x v (k.seq b)
  | .peek x k, b => .peek x (k.seq b)
  | .mov_rax v k, b => .mov_rax v (k.seq b)
  | .scope_end k, b => .scope_end (k.seq b)
  | .defer t k, b => .defer t (k.seq b)

/-- Size of a piece of code, counting the code of the tasks it declares. -/
def Code.weight : Code → Nat
  | .ret => 1
  | .write _ _ k => k.weight + 1
  | .peek _ k => k.weight + 1
  | .mov_rax _ k => k.weight + 1
  | .scope_end k => k.weight + 1
  | .defer t k => t.weight + k.weight + 1

/-- Total size of the tasks of a registry. -/
def weight_of : List Code → Nat
  | [] => 0
  | t :: ts => t.weight + weight_of ts

/-- The stores of a list of non-declaring tasks run one after the other in
list order, each started with a null pending resume address. -/
def stores_in_order : List Code → List (Nat × Int)
  | [] => []
  | t :: ts => t.stores nullptr nullptr ++ stores_in_order ts

/-- The stores made by emptying a registry as a stack, general tasks: the back
task runs from a null pending resume address in the frame of `task()`, the
tasks it declared go on top of the rest, and so on; `fuel` bounds the number of
tasks run. -/
def lifo_stores (P : Platform) : Nat → List Code → List (Nat × Int)
  | 0, _ => []
  | fuel + 1, registry =>
    match registry.getLast? with
    | none => []
    | some t =>
      t.stores P.task_return nullptr ++ lifo_stores P fuel (registry.dropLast ++ t.declared)

/-- Everything that running the stored task `t` from the drain loop stores:
its own stores, then those of the tasks it declared, last declared first. -/
def task_stores (P : Platform) (t : Code) : List (Nat × Int) :=
  lifo_stores P (t.weight + 1) [t]

/-- The value a variable holds after a trace of stores: that of the last store to it. -/
def value_of (x : Nat) : List (Nat × Int) → Option Int
  | [] => none
  | (y, v) :: rest =>
    match value_of x rest with
    | some w => some w
    | none => if y = x then some v else none

/-- Declarations `defer t;` executed one after the other, each given with the
frame base and return address of the function that makes it. -/
def declare_seq (P : Platform) : List (Addr × Addr × Code) → State → Run State
  | [], s => .done s
  | d :: ds, s => (defer_impl P d.1 d.2.1 d.2.2 s).bind (declare_seq P ds)

/-- The tasks of a list of declarations, in declaration order. -/
def declared_tasks (ds : List (Addr × Addr × Code)) : List Code :=
  ds.map fun d => d.2.2

/-- Whether a run completed. -/
def Run.completed {α : Type} : Run α → Bool
  | .done _ => true
  | _ => false

/-- The final state of a run, when it completed. -/
def Run.state : Run State → Option State
  | .done s => some s
  | _ => none

/-- The trace at the end of a run, when it completed. -/
def Run.final_trace (r : Run State) : Option (List (Nat × Int)) :=
  r.state.map fun s => s.trace

/-- The content of the return-value register at the end of a run, when it completed. -/
def Run.final_rax (r : Run State) : Option Nat :=
  r.state.map fun s => s.rax

/-- What a completed run of Drain or of the trampoline leaves to observe: the
trace, the two thread-local variables' emptiness and value, the return-value
register and the address handed on. -/
def Run.observe (r : Run (State × Addr)) :
    Option (List (Nat × Int) × Nat × Addr × Nat × Addr) :=
  match r with
  | .done x =>
    some (x.1.trace, x.1.deferred_task_stack.length, x.1.final_return_address, x.1.rax, x.2)
  | _ => none

/-- The helper `test_basic_defer_logic` of `tests.cpp`; the log is variable 1
and its entries `enter_function`, `exit_function`, `deferred_action` are the
values 1, 2, 3. -/
def test_basic_defer_logic : Code :=
  .write 1 1 (.defer (.write 1 3 .ret) (.write 1 2 .ret))

/-- The helper `test_lifo_order_logic` of `tests.cpp`; the log is variable 1 and
the entry `deferred_k` is the value `k`. -/
def test_lifo_order_logic : Code :=
  .defer (.write 1 1 .ret) (.defer (.write 1 2 .ret) (.defer (.write 1 3 .ret) .ret))

/-- The helper `test_exception_logic` of `tests.cpp` up to its `throw`; the log
is variable 1. -/
def test_exception_logic : Code :=
  .defer (.write 1 1 .ret) .ret

/-- The helper `function_with_early_return` of `tests.cpp`:
`defer [&] { side_effect_flag = true; };` followed by `return side_effect_flag;`
taken while the flag (variable 0) is still false, so the result is 0. -/
def function_with_early_return : Code :=
  .defer (.write 0 1 .ret) (.mov_rax 0 .ret)

/-- The helper `test_variable_capture_logic` of `tests.cpp`:
`defer [&value] { value = 99; };` followed by `value = 10;` (variable 0). -/
def test_variable_capture_logic : Code :=
  .defer (.write 0 99 .ret) (.write 0 10 .ret)

/-- A concrete thread as a task run by Drain finds it while an older task, which
stores 5 to variable 0, is still queued: the pending resume address has been
cleared and the registry is not empty. -/
def example_draining : State :=
  { deferred_task_stack := [.write 0 5 .ret], final_return_address := nullptr,
    mem := fun _ => 0, trace := [], rax := 0, rsp := 0x7fe0 }

/-- A concrete thread inside a hijack window: the frame with base `0x7ff0` has
declared one task, so its return-address slot holds the trampoline's address
and `0x400100` is pending. -/
def example_armed : State :=
  { deferred_task_stack := [.write 7 7 .ret], final_return_address := 0x400100,
    mem := fun a => if a = 0x7ff8 then 0x500000 else 0,
    trace := [], rax := 0, rsp := 0x7fe0 }

/-- A task that reads the pending resume address into variable 1, declares a
task of its own, and reads the pending resume address again into variable 2. -/
def probing_task : Code :=
  .peek 1 (.defer .ret (.peek 2 .ret))

/-- A concrete thread at the moment its intercepted frame returns: `0x400100`
is pending and `probing_task` is the one queued task. -/
def example_probing : State :=
  { deferred_task_stack := [probing_task], final_return_address := 0x400100,
    mem := fun a => if a = 0x7ff8 then 0x500000 else 0,
    trace := [], rax := 0, rsp := 0x8000 }

/-- A concrete idle thread whose current frame, with base `0x7ff0`, is an
outermost one: the return address reported for it and the word in its
return-address slot are both null. -/
def example_outermost : State :=
  { deferred_task_stack := [], final_return_address := nullptr, mem := fun _ => 0,
    trace := [], rax := 0, rsp := 0x7fe0 }

/-- The build's addresses are usable: a callable runs in a frame with non-null
base, and the return site of `task()` is neither null nor the trampoline. -/
structure Platform.Sane (P : Platform) : Prop where
  task_frame_ne : P.task_frame ≠ nullptr
  task_return_ne : P.task_return ≠ nullptr
  task_return_ne_trampoline : P.task_return ≠ P.defer_trampoline

/-- The thread-local part of a state is idle: no pending resume address, empty registry. -/
def State.Idle (s : State) : Prop :=
  s.final_return_address = nullptr ∧ s.deferred_task_stack = []

/-- A concrete process in which every thread is idle. -/
def example_world : World :=
  { threads := fun _ =>
      { deferred_task_stack := [], final_return_address := nullptr, rax := 0, rsp := 0 }
    mem := fun a => if a = 0x7ff8 then 0x400100 else if a = 0x6ff8 then 0x400100 else 0
    trace := [] }

/-- The schedule of the test on thread-locality, with a second task on thread 1:
threads 1 and 2 run the same function (return address `0x400100`), each on its
own stack, and their declarations interleave. -/
def example_schedule : List Decl :=
  [ { tid := 1, fp := 0x7ff0, ra := 0x400100, task := .write 1 10 .ret },
    { tid := 2, fp := 0x6ff0, ra := 0x400100, task := .write 2 20 .ret },
    { tid := 1, fp := 0x7ff0, ra := 0x400100, task := .write 1 11 .ret } ]

/-- A concrete build, used for the worked examples. -/
def example_platform : Platform :=
  { defer_trampoline := 0x500000, task_frame := 0x7000, task_return := 0x600000 }

/-- A concrete idle thread that has just entered a function with frame base
`0x7ff0`, called from the site whose return address is `0x400100`. -/
def example_idle : State :=
  { deferred_task_stack := [], final_return_address := nullptr,
    mem := fun a => if a = 0x7ff8 then 0x400100 else 0,
    trace := [], rax := 0, rsp := 0x7fe0 }

/-! ## The declaration -/

theorem defer_impl_armed (P : Platform) (fp ra : Addr) (f : Code) (s : State)
    (h : s.final_return_address ≠ nullptr) :
    defer_impl P fp ra f s
      = .done { s with deferred_task_stack := s.deferred_task_stack ++ [f] } := by
  simp [defer_impl, h]

theorem defer_impl_idle (P : Platform) (fp ra : Addr) (f : Code) (s : State)
    (h : s.final_return_address = nullptr) (hfp : fp ≠ nullptr) (hra : ra ≠ nullptr)
    (hslot : s.mem (fp + sizeof_ptr) = ra) :
    defer_impl P fp ra f s
      = .done { s with
          deferred_task_stack := s.deferred_task_stack ++ [f]
          final_return_address := ra
          mem := Function.update s.mem (fp + sizeof_ptr) P.defer_trampoline } := by
  simp [defer_impl, h, hfp, hra, hslot]

/-- A declaration that succeeds either installed the hijack and appended, or
only appended; in both cases it made no store and the pending resume address
is set afterwards. -/
theorem defer_impl_done (P : Platform) (fp ra : Addr) (f : Code) (s s' : State)
    (h : defer_impl P fp ra f s = .done s') :
    s'.trace = s.trace ∧ s'.final_return_address ≠ nullptr ∧
      s'.deferred_task_stack = s.deferred_task_stack ++ [f] := by
  by_cases h0 : s.final_return_address = nullptr
  · by_cases h1 : fp = nullptr
    · simp [defer_impl, h0, h1] at h
    · by_cases h2 : ra = nullptr
      · simp [defer_impl, h0, h1, h2] at h
      · by_cases h3 : s.mem (fp + sizeof_ptr) = ra
        · rw [defer_impl_idle P fp ra f s h0 h1 h2 h3] at h
          cases h
          exact ⟨rfl, h2, rfl⟩
        · simp [defer_impl, h0, h1, h2, h3] at h
  · rw [defer_impl_armed P fp ra f s h0] at h
    cases h
    exact ⟨rfl, h0, rfl⟩

/-! ## Function bodies -/

theorem run_body_armed (P : Platform) (fp ra : Addr) (c : Code) :
    ∀ s : State, s.final_return_address ≠ nullptr →
      run_body P fp ra c s
        = .done { s with
            deferred_task_stack := s.deferred_task_stack ++ c.declared
            trace := s.trace ++ c.stores ra s.final_return_address
            rax := c.result s.rax } := by
  induction c with
  | ret => intro s _; simp [run_body, Code.declared, Code.stores, Code.result]
  | write x v k ih =>
    intro s h
    rw [run_body, ih]
    · simp [Code.declared, Code.stores, Code.result]
    · exact h
  | peek x k ih =>
    intro s h
    rw [run_body, ih]
    · simp [Code.declared, Code.stores, Code.result]
    · exact h
  | mov_rax v k ih =>
    intro s h
    rw [run_body, ih]
    · simp [Code.declared, Code.stores, Code.result]
    · exact h
  | scope_end k ih =>
    intro s h
    rw [run_body, ih]
    · simp [Code.declared, Code.stores, Code.result]
    · exact h
  | defer t k _ ih =>
    intro s h
    rw [run_body, defer_impl_armed P fp ra t s h, Run.bind, ih]
    · simp [Code.declared, Code.stores, Code.result, h]
    · exact h

theorem run_body_idle (P : Platform) (fp ra : Addr) (hfp : fp ≠ nullptr) (hra : ra ≠ nullptr)
    (c : Code) :
    ∀ s : State, s.final_return_address = nullptr → s.mem (fp + sizeof_ptr) = ra →
      run_body P fp ra c s
        = .done (if c.declared = [] then
            { s with
              trace := s.trace ++ c.stores ra nullptr
              rax := c.result s.rax }
          else
            { s with
              deferred_task_stack := s.deferred_task_stack ++ c.declared
              final_return_address := ra
              mem := Function.update s.mem (fp + sizeof_ptr) P.defer_trampoline
              trace := s.trace ++ c.stores ra nullptr
              rax := c.result s.rax }) := by
  induction c with
  | ret => intro s _ _; simp [run_body, Code.declared, Code.stores, Code.result]
  | write x v k ih =>
    intro s h hm
    rw [run_body, ih]
    · simp [Code.declared, Code.stores, Code.result]
    · exact h
    · exact hm
  | peek x k ih =>
    intro s h hm
    rw [run_body, ih]
    · simp [Code.declared, Code.stores, Code.result, h]
    · exact h
    · exact hm
  | mov_rax v k ih =>
    intro s h hm
    rw [run_body, ih]
    · simp [Code.declared, Code.stores, Code.result]
    · exact h
    · exact hm
  | scope_end k ih =>
    intro s h hm
    rw [run_body, ih]
    · simp [Code.declared, Code.stores, Code.result]
    · exact h
    · exact hm
  | defer t k _ _ =>
    intro s h hm
    rw [run_body, defer_impl_idle P fp ra t s h hfp hra hm, Run.bind, run_body_armed]
    · simp [Code.declared, Code.stores, Code.result]
    · exact hra

theorem run_body_plain (P : Platform) (fp ra : Addr) (c : Code) :
    ∀ s : State, c.declared = [] →
      run_body P fp ra c s
        = .done { s with
            trace := s.trace ++ c.stores ra s.final_return_address
            rax := c.result s.rax } := by
  induction c with
  | ret => intro s _; simp [run_body, Code.stores, Code.result]
  | write x v k ih =>
    intro s h
    rw [run_body, ih _ (by simpa [Code.declared] using h)]
    simp [Code.stores, Code.result]
  | peek x k ih =>
    intro s h
    rw [run_body, ih _ (by simpa [Code.declared] using h)]
    simp [Code.stores, Code.result]
  | mov_rax v k ih =>
    intro s h
    rw [run_body, ih _ (by simpa [Code.declared] using h)]
    simp [Code.stores, Code.result]
  | scope_end k ih =>
    intro s h
    rw [run_body, ih _ (by simpa [Code.declared] using h)]
    simp [Code.stores, Code.result]
  | defer t k _ _ => intro s h; simp [Code.declared] at h

theorem stores_plain (ra ra' p : Addr) (c : Code) (h : c.declared = []) :
    c.stores ra p = c.stores ra' p := by
  induction c with
  | ret => rfl
  | write x v k ih => simp [Code.stores, ih (by simpa [Code.declared] using h)]
  | peek x k ih => simp [Code.stores, ih (by simpa [Code.declared] using h)]
  | mov_rax v k ih => simp [Code.stores, ih (by simpa [Code.declared] using h)]
  | scope_end k ih => simp [Code.stores, ih (by simpa [Code.declared] using h)]
  | defer t k _ _ => simp [Code.declared] at h

theorem Run.exists_done {α : Type} (r : Run α) (h : r.completed = true) :
    ∃ a, r = .done a := by
  cases r with
  | done a => exact ⟨a, rfl⟩
  | aborted s => simp [Run.completed] at h
  | wild s pc => simp [Run.completed] at h
  | out_of_fuel => simp [Run.completed] at h

theorem Run.bind_eq_done {α β : Type} (r : Run α) (f : α → Run β) (b : β) :
    r.bind f = .done b ↔ ∃ a, r = .done a ∧ f a = .done b := by
  cases r <;> simp [Run.bind]

/-! ## Calls -/

/-- A call whose frame is not intercepted when it returns: a body that declares
nothing, on any thread. -/
theorem call_with_plain (P : Platform) (loop : State → Run State) (fp ra : Addr)
    (body : Code) (s : State) (hb : body.declared = []) (hra : ra ≠ P.defer_trampoline) :
    call_with P loop fp ra body s
      = .done { s with
          mem := Function.update s.mem (fp + sizeof_ptr) ra
          trace := s.trace ++ body.stores ra s.final_return_address
          rax := body.result s.rax } := by
  rw [call_with, run_body_plain P fp ra body _ hb]
  simp [enter, Run.bind, function_return_with, hra]

/-- A call made while a resume address is pending: the body only appends its
tasks and the return is an ordinary one. -/
theorem call_with_armed (P : Platform) (loop : State → Run State) (fp ra : Addr)
    (body : Code) (s : State) (hs : s.final_return_address ≠ nullptr)
    (hra : ra ≠ P.defer_trampoline) :
    call_with P loop fp ra body s
      = .done { s with
          deferred_task_stack := s.deferred_task_stack ++ body.declared
          mem := Function.update s.mem (fp + sizeof_ptr) ra
          trace := s.trace ++ body.stores ra s.final_return_address
          rax := body.result s.rax } := by
  have h := run_body_armed P fp ra body (enter fp ra s) (by simpa [enter] using hs)
  rw [call_with, h]
  simp [enter, Run.bind, function_return_with, hra]

/-- A call of a declaring body on an idle thread: the return goes through the
trampoline, which runs the drain loop and resumes at `ra` with `ra` in `%rax`. -/
theorem call_with_idle (P : Platform) (loop : State → Run State) (fp ra : Addr)
    (body : Code) (s : State) (hs : s.final_return_address = nullptr)
    (hfp : fp ≠ nullptr) (hra : ra ≠ nullptr) (hb : body.declared ≠ []) :
    call_with P loop fp ra body s
      = (loop { s with
            deferred_task_stack := s.deferred_task_stack ++ body.declared
            final_return_address := nullptr
            mem := Function.update s.mem (fp + sizeof_ptr) P.defer_trampoline
            trace := s.trace ++ body.stores ra nullptr
            rax := body.result s.rax
            rsp := (s.rsp + 2 ^ 64 - 8) % 2 ^ 64 }).bind
          fun s2 => .done { s2 with rax := ra, rsp := (s2.rsp + 8) % 2 ^ 64 } := by
  have h := run_body_idle P fp ra hfp hra body (enter fp ra s) (by simpa [enter] using hs)
    (by simp [enter])
  rw [call_with, h, if_neg hb]
  simp only [Run.bind, function_return_with, enter, Function.update_same,
    Function.update_idem, if_true, defer_trampoline_with, execute_deferred_task_with]
  cases loop _ <;> simp [Run.bind]

/-! ## The drain loop -/

theorem drain_loop_nil (P : Platform) (n : Nat) (s : State) (h : s.deferred_task_stack = []) :
    drain_loop P (n + 1) s = .done s := by
  simp [drain_loop, h]

theorem drain_loop_snoc (P : Platform) (n : Nat) (s : State) (rest : List Code) (t : Code)
    (h : s.deferred_task_stack = rest ++ [t]) :
    drain_loop P (n + 1) s
      = (call_with P (drain_loop P n) P.task_frame P.task_return t
          { s with deferred_task_stack := rest }).bind (drain_loop P n) := by
  simp [drain_loop, h]

theorem nil_or_snoc (l : List Code) : l = [] ∨ ∃ rest t, l = rest ++ [t] := by
  rcases List.eq_nil_or_concat l with h | ⟨rest, t, h⟩
  · exact Or.inl h
  · exact Or.inr ⟨rest, t, by simpa [List.concat_eq_append] using h⟩

theorem stores_in_order_snoc_reverse (rest : List Code) (t : Code) :
    stores_in_order (rest ++ [t]).reverse
      = t.stores nullptr nullptr ++ stores_in_order rest.reverse := by
  simp [stores_in_order]

/-- The loop over a registry of non-declaring tasks: with more fuel than tasks
it completes, having run the tasks from the back to the front. -/
theorem drain_loop_plain (P : Platform) (hP : P.Sane) :
    ∀ (n : Nat) (tasks : List Code) (s : State),
      s.deferred_task_stack = tasks → (∀ t ∈ tasks, t.declared = []) →
      s.final_return_address = nullptr → tasks.length < n →
      ∃ s', drain_loop P n s = .done s' ∧ s'.deferred_task_stack = [] ∧
        s'.final_return_address = nullptr ∧
        s'.trace = s.trace ++ stores_in_order tasks.reverse := by
  intro n
  induction n with
  | zero => intro tasks s _ _ _ h; simp at h
  | succ n ih =>
    intro tasks s hs hplain hfin hlen
    rcases nil_or_snoc tasks with hnil | ⟨rest, t, hsnoc⟩
    · subst hnil
      exact ⟨s, drain_loop_nil P n s hs, hs, hfin, by simp [stores_in_order]⟩
    · subst hsnoc
      have ht : t.declared = [] := hplain t (by simp)
      rw [drain_loop_snoc P n s rest t hs,
        call_with_plain P _ _ _ t _ ht hP.task_return_ne_trampoline, Run.bind]
      obtain ⟨s', h1, h2, h3, h4⟩ := ih rest
        { s with
          deferred_task_stack := rest
          mem := Function.update s.mem (P.task_frame + sizeof_ptr) P.task_return
          trace := s.trace ++ t.stores P.task_return s.final_return_address
          rax := t.result s.rax } rfl
        (fun u hu => hplain u (by simp [hu])) hfin (by simpa using hlen)
      refine ⟨s', h1, h2, h3, ?_⟩
      rw [h4, stores_in_order_snoc_reverse, hfin,
        stores_plain P.task_return nullptr nullptr t ht]
      simp

theorem weight_of_append (a b : List Code) : weight_of (a ++ b) = weight_of a + weight_of b := by
  induction a with
  | nil => simp [weight_of]
  | cons t ts ih => simp [weight_of, ih, Nat.add_assoc]

theorem weight_declared_lt (c : Code) : weight_of c.declared < c.weight := by
  induction c with
  | ret => simp [Code.declared, weight_of, Code.weight]
  | write x v k ih => simp [Code.declared, Code.weight]; omega
  | peek x k ih => simp [Code.declared, Code.weight]; omega
  | mov_rax v k ih => simp [Code.declared, Code.weight]; omega
  | scope_end k ih => simp [Code.declared, Code.weight]; omega
  | defer t k _ ih => simp [Code.declared, Code.weight, weight_of]; omega

theorem weight_pos (c : Code) : 0 < c.weight := by
  cases c <;> simp [Code.weight]

theorem lifo_stores_nil (P : Platform) (n : Nat) : lifo_stores P n [] = [] := by
  cases n <;> simp [lifo_stores]

theorem lifo_stores_snoc (P : Platform) (n : Nat) (rest : List Code) (t : Code) :
    lifo_stores P (n + 1) (rest ++ [t])
      = t.stores P.task_return nullptr ++ lifo_stores P n (rest ++ t.declared) := by
  simp [lifo_stores]

/-- With fuel above the registry's weight, the stores of the stack discipline
do not depend on the fuel. -/
theorem lifo_stores_fuel (P : Platform) :
    ∀ (n m : Nat) (registry : List Code), weight_of registry < n → weight_of registry < m →
      lifo_stores P n registry = lifo_stores P m registry := by
  intro n
  induction n with
  | zero => intro m registry h; simp at h
  | succ n ih =>
    intro m registry hn hm
    rcases nil_or_snoc registry with hnil | ⟨rest, t, hsnoc⟩
    · subst hnil; simp [lifo_stores_nil]
    · subst hsnoc
      obtain ⟨m, rfl⟩ : ∃ k, m = k + 1 := ⟨m - 1, by omega⟩
      rw [weight_of_append] at hn hm
      simp only [weight_of, Nat.add_zero] at hn hm
      have hlt := weight_declared_lt t
      rw [lifo_stores_snoc, lifo_stores_snoc,
        ih m (rest ++ t.declared) (by rw [weight_of_append]; omega)
          (by rw [weight_of_append]; omega)]

theorem lifo_stores_plain (P : Platform) :
    ∀ (n : Nat) (tasks : List Code), (∀ t ∈ tasks, t.declared = []) → tasks.length < n →
      lifo_stores P n tasks = stores_in_order tasks.reverse := by
  intro n
  induction n with
  | zero => intro tasks _ h; simp at h
  | succ n ih =>
    intro tasks hplain hlen
    rcases nil_or_snoc tasks with hnil | ⟨rest, t, hsnoc⟩
    · subst hnil; simp [lifo_stores_nil, stores_in_order]
    · subst hsnoc
      have ht : t.declared = [] := hplain t (by simp)
      rw [lifo_stores_snoc, ht, List.append_nil, stores_in_order_snoc_reverse,
        ih rest (fun u hu => hplain u (by simp [hu])) (by simpa using hlen),
        stores_plain P.task_return nullptr nullptr t ht]

theorem task_stores_plain (P : Platform) (t : Code) (h : t.declared = []) :
    task_stores P t = t.stores nullptr nullptr := by
  have hpos := weight_pos t
  have := lifo_stores_plain P (t.weight + 1) [t] (by simpa using h) (by simp; omega)
  simpa [task_stores, stores_in_order] using this

/-- The loop over any registry, started with a null pending resume address on a
sane build: with fuel above the registry's weight it completes, leaves the
thread idle, and has made the stores of the stack discipline. -/
theorem drain_loop_total (P : Platform) (hP : P.Sane) :
    ∀ (n : Nat) (s : State), s.final_return_address = nullptr →
      weight_of s.deferred_task_stack < n →
      ∃ s', drain_loop P n s = .done s' ∧ s'.deferred_task_stack = [] ∧
        s'.final_return_address = nullptr ∧
        s'.trace = s.trace ++ lifo_stores P n s.deferred_task_stack := by
  intro n
  induction n with
  | zero => intro s _ h; simp at h
  | succ n ih =>
    intro s hfin hw
    rcases nil_or_snoc s.deferred_task_stack with hnil | ⟨rest, t, hsnoc⟩
    · exact ⟨s, drain_loop_nil P n s hnil, hnil, hfin, by simp [hnil, lifo_stores_nil]⟩
    · rw [drain_loop_snoc P n s rest t hsnoc, hsnoc, lifo_stores_snoc]
      rw [hsnoc, weight_of_append] at hw
      simp only [weight_of, Nat.add_zero] at hw
      by_cases hd : t.declared = []
      · rw [call_with_plain P _ _ _ t _ hd hP.task_return_ne_trampoline, Run.bind]
        have hpos := weight_pos t
        obtain ⟨s1, h1, h2, h3, h4⟩ := ih
          { s with
            deferred_task_stack := rest
            mem := Function.update s.mem (P.task_frame + sizeof_ptr) P.task_return
            trace := s.trace ++ t.stores P.task_return s.final_return_address
            rax := t.result s.rax } hfin (by simp only []; omega)
        refine ⟨s1, h1, h2, h3, ?_⟩
        rw [h4, hd, hfin]
        simp
      · rw [call_with_idle P (drain_loop P n) P.task_frame P.task_return t
          { s with deferred_task_stack := rest } hfin hP.task_frame_ne hP.task_return_ne hd]
        have hlt := weight_declared_lt t
        obtain ⟨s1, h1, h2, h3, h4⟩ := ih
          { s with
            deferred_task_stack := rest ++ t.declared
            final_return_address := nullptr
            mem := Function.update s.mem (P.task_frame + sizeof_ptr) P.defer_trampoline
            trace := s.trace ++ t.stores P.task_return nullptr
            rax := t.result s.rax
            rsp := (s.rsp + 2 ^ 64 - 8) % 2 ^ 64 } rfl
          (by simp only [weight_of_append]; omega)
        obtain ⟨m, rfl⟩ : ∃ m, n = m + 1 := by
          rcases n with _ | m
          · simp [drain_loop] at h1
          · exact ⟨m, rfl⟩
        refine ⟨{ s1 with rax := P.task_return, rsp := (s1.rsp + 8) % 2 ^ 64 }, ?_, h2, h3, ?_⟩
        · rw [h1, Run.bind, Run.bind]
          exact drain_loop_nil P m _ h2
        · simp only [h4, List.append_assoc]

/-- The loop run as part of `execute_deferred_task` on a sane build, general
tasks: completion, and the address that was pending at the start is returned. -/
theorem execute_deferred_task_total (P : Platform) (hP : P.Sane) (n : Nat) (s : State)
    (hw : weight_of s.deferred_task_stack < n) :
    ∃ s', execute_deferred_task P n s = .done (s', s.final_return_address) ∧
      s'.deferred_task_stack = [] ∧ s'.final_return_address = nullptr ∧
      s'.trace = s.trace ++ lifo_stores P n s.deferred_task_stack := by
  obtain ⟨s', h1, h2, h3, h4⟩ := drain_loop_total P hP n
    { s with final_return_address := nullptr } rfl hw
  exact ⟨s', by simp [execute_deferred_task, execute_deferred_task_with, h1, Run.bind],
    h2, h3, h4⟩

/-- Drain of a registry of non-declaring tasks. -/
theorem execute_deferred_task_plain (P : Platform) (hP : P.Sane) (n : Nat) (s : State)
    (hplain : ∀ t ∈ s.deferred_task_stack, t.declared = [])
    (hlen : s.deferred_task_stack.length < n) :
    ∃ s', execute_deferred_task P n s = .done (s', s.final_return_address) ∧
      s'.deferred_task_stack = [] ∧ s'.final_return_address = nullptr ∧
      s'.trace = s.trace ++ stores_in_order s.deferred_task_stack.reverse := by
  obtain ⟨s', h1, h2, h3, h4⟩ := drain_loop_plain P hP n s.deferred_task_stack
    { s with final_return_address := nullptr } rfl hplain rfl hlen
  exact ⟨s', by simp [execute_deferred_task, execute_deferred_task_with, h1, Run.bind],
    h2, h3, h4⟩

theorem declare_seq_armed (P : Platform) (ds : List (Addr × Addr × Code)) :
    ∀ s : State, s.final_return_address ≠ nullptr →
      declare_seq P ds s
        = .done { s with deferred_task_stack := s.deferred_task_stack ++ declared_tasks ds } := by
  induction ds with
  | nil => intro s _; simp [declare_seq, declared_tasks]
  | cons d ds ih =>
    intro s h
    rw [declare_seq, defer_impl_armed P _ _ _ s h, Run.bind, ih]
    · simp [declared_tasks]
    · exact h

/-! ## The helpers of `tests.cpp`, run on the model -/

/-- Test "Defer executes after function returns": the log reads
`enter_function`, `exit_function`, `deferred_action`. -/
theorem test_basic_defer_logic_trace :
    (call example_platform 2 0x7ff0 0x400100 test_basic_defer_logic example_idle).final_trace
      = some [(1, 1), (1, 2), (1, 3)] := by
  decide

/-- Test "Multiple defers execute in LIFO order": the log reads `deferred_3`,
`deferred_2`, `deferred_1`. -/
theorem test_lifo_order_logic_trace :
    (call example_platform 4 0x7ff0 0x400100 test_lifo_order_logic example_idle).final_trace
      = some [(1, 3), (1, 2), (1, 1)] := by
  decide

/-- Test "Deferred lambda can capture and modify local variables": the caller
finds 99 in the variable. -/
theorem test_variable_capture_logic_value :
    ((call example_platform 2 0x7ff0 0x400100 test_variable_capture_logic
        example_idle).final_trace.bind fun tr => value_of 0 tr) = some 99 := by
  decide

/-- Test "LIMITATION: Defer DO NOT work with stack unwinding": when the helper
reaches its `throw` the log is empty and the task is queued. -/
theorem test_exception_logic_trace :
    (run_body example_platform 0x7ff0 0x400100 test_exception_logic
        (enter 0x7ff0 0x400100 example_idle)).final_trace = some [] ∧
    ((run_body example_platform 0x7ff0 0x400100 test_exception_logic
        (enter 0x7ff0 0x400100 example_idle)).state.map fun s => s.deferred_task_stack)
      = some [.write 1 1 .ret] := by
  decide

/-! ## C1: last declared, first executed, each once -/

/-- Claim C1. On an idle thread, let tasks that declare nothing be declared one
after the other, the first in a frame that passes the sanity check. All the
declarations succeed and execute nothing; the next `execute_deferred_task`,
given more fuel than there are tasks, completes, returns the first frame's
return address, and has executed exactly the stores of the tasks in the
reverse of declaration order, each task once; it leaves the thread idle, and
a further `execute_deferred_task` returns null and executes nothing. -/
theorem C1_drain_runs_tasks_in_reverse_once (P : Platform) (hP : P.Sane) (s : State)
    (fp ra : Addr) (t : Code) (ds : List (Addr × Addr × Code)) (n : Nat)
    (hidle : s.Idle) (hfp : fp ≠ nullptr) (hra : ra ≠ nullptr)
    (hslot : s.mem (fp + sizeof_ptr) = ra)
    (hplain : ∀ u ∈ declared_tasks ((fp, ra, t) :: ds), u.declared = [])
    (hn : ((fp, ra, t) :: ds).length < n) :
    ∃ s1 s2 s3,
      declare_seq P ((fp, ra, t) :: ds) s = .done s1 ∧
      s1.deferred_task_stack = declared_tasks ((fp, ra, t) :: ds) ∧
      s1.trace = s.trace ∧
      execute_deferred_task P n s1 = .done (s2, ra) ∧
      s2.trace = s.trace ++ stores_in_order (declared_tasks ((fp, ra, t) :: ds)).reverse ∧
      s2.Idle ∧
      execute_deferred_task P n s2 = .done (s3, nullptr) ∧
      s3.trace = s2.trace ∧ s3.Idle := by
  obtain ⟨hfin, hreg⟩ := hidle
  have h1 : declare_seq P ((fp, ra, t) :: ds) s
      = .done { s with
          deferred_task_stack := declared_tasks ((fp, ra, t) :: ds)
          final_return_address := ra
          mem := Function.update s.mem (fp + sizeof_ptr) P.defer_trampoline } := by
    rw [declare_seq, defer_impl_idle P fp ra t s hfin hfp hra hslot, Run.bind,
      declare_seq_armed P ds _ hra]
    simp [declared_tasks, hreg]
  obtain ⟨s2, h2, h3, h4, h5⟩ := execute_deferred_task_plain P hP n
    { s with
      deferred_task_stack := declared_tasks ((fp, ra, t) :: ds)
      final_return_address := ra
      mem := Function.update s.mem (fp + sizeof_ptr) P.defer_trampoline } hplain
    (by simpa [declared_tasks] using hn)
  obtain ⟨s3, h6, h7, h8, h9⟩ := execute_deferred_task_plain P hP n s2
    (by simp [h3]) (by simp [h3]; omega)
  refine ⟨_, s2, s3, h1, rfl, rfl, h2, h5, ⟨h4, h3⟩, ?_, ?_, ⟨h8, h7⟩⟩
  · rw [h6, h4]
  · rw [h9, h3]; simp [stores_in_order]

/-- Claim C1 at the test `test_lifo_order_logic`: three tasks pushing
`deferred_1`, `deferred_2`, `deferred_3` (here the values 1, 2, 3 stored to
variable 0) are run as 3, 2, 1. -/
theorem C1_witness :
    ∃ s1 s2 s3,
      declare_seq example_platform
        [(0x7ff0, 0x400100, .write 0 1 .ret), (0x7ff0, 0x400100, .write 0 2 .ret),
          (0x7ff0, 0x400100, .write 0 3 .ret)] example_idle = .done s1 ∧
      s1.deferred_task_stack = declared_tasks
        [(0x7ff0, 0x400100, .write 0 1 .ret), (0x7ff0, 0x400100, .write 0 2 .ret),
          (0x7ff0, 0x400100, .write 0 3 .ret)] ∧
      s1.trace = example_idle.trace ∧
      execute_deferred_task example_platform 4 s1 = .done (s2, 0x400100) ∧
      s2.trace = example_idle.trace ++ stores_in_order (declared_tasks
        [(0x7ff0, 0x400100, .write 0 1 .ret), (0x7ff0, 0x400100, .write 0 2 .ret),
          (0x7ff0, 0x400100, .write 0 3 .ret)]).reverse ∧
      s2.Idle ∧
      execute_deferred_task example_platform 4 s2 = .done (s3, nullptr) ∧
      s3.trace = s2.trace ∧ s3.Idle :=
  C1_drain_runs_tasks_in_reverse_once example_platform
    ⟨by decide, by decide, by decide⟩ example_idle 0x7ff0 0x400100 (.write 0 1 .ret)
    [(0x7ff0, 0x400100, .write 0 2 .ret), (0x7ff0, 0x400100, .write 0 3 .ret)] 4
    ⟨rfl, rfl⟩ (by decide) (by decide) (by decide) (by decide) (by decide)

/-! ## C4: one hijack window, there and back -/

/-- Claim C4. On an idle thread, in a frame whose return-address slot
`fp + sizeof(void*)` holds `R` (all three assertions pass), the first
declaration leaves the slot holding the trampoline's entry address and the
pending resume address equal to `R`; the following `execute_deferred_task`,
given fuel above the task's weight, returns exactly `R` and leaves the pending
resume address null and the registry empty. The same holds when the drain is
reached the way the program reaches it, by the frame's return instruction:
control resumes at `R` on an idle thread. -/
theorem C4_hijack_round_trip (P : Platform) (hP : P.Sane) (s : State) (fp R : Addr)
    (t : Code) (n : Nat) (hidle : s.Idle) (hfp : fp ≠ nullptr) (hR : R ≠ nullptr)
    (hslot : s.mem (fp + sizeof_ptr) = R) (hn : t.weight < n) :
    ∃ s1 s2 s3,
      defer_impl P fp R t s = .done s1 ∧
      s1.mem (fp + sizeof_ptr) = P.defer_trampoline ∧
      s1.final_return_address = R ∧
      s1.deferred_task_stack = [t] ∧
      execute_deferred_task P n s1 = .done (s2, R) ∧
      s2.final_return_address = nullptr ∧ s2.deferred_task_stack = [] ∧
      function_return P n fp s1 = .done (s3, R) ∧ s3.Idle := by
  obtain ⟨hfin, hreg⟩ := hidle
  have h1 := defer_impl_idle P fp R t s hfin hfp hR hslot
  rw [hreg, List.nil_append] at h1
  obtain ⟨s2, h2, h3, h4, _⟩ := execute_deferred_task_total P hP n
    { s with
      deferred_task_stack := [t]
      final_return_address := R
      mem := Function.update s.mem (fp + sizeof_ptr) P.defer_trampoline }
    (by simpa [weight_of] using hn)
  obtain ⟨s3, h5, h6, h7, _⟩ := execute_deferred_task_total P hP n
    { s with
      deferred_task_stack := [t]
      final_return_address := R
      mem := Function.update s.mem (fp + sizeof_ptr) P.defer_trampoline
      rsp := (s.rsp + 2 ^ 64 - 8) % 2 ^ 64 }
    (by simpa [weight_of] using hn)
  refine ⟨_, s2, { s3 with rax := R, rsp := (s3.rsp + 8) % 2 ^ 64 }, h1, by simp, rfl, rfl,
    h2, h4, h3, ?_, ⟨h7, h6⟩⟩
  simp only [function_return, function_return_with, Function.update_same, if_true,
    defer_trampoline_with]
  simp only [execute_deferred_task] at h5
  rw [h5, Run.bind]

/-- Claim C4 at a concrete frame: base `0x7ff0`, return address `0x400100`. -/
theorem C4_witness :
    ∃ s1 s2 s3,
      defer_impl example_platform 0x7ff0 0x400100 (.write 0 1 .ret) example_idle = .done s1 ∧
      s1.mem (0x7ff0 + sizeof_ptr) = example_platform.defer_trampoline ∧
      s1.final_return_address = 0x400100 ∧
      s1.deferred_task_stack = [.write 0 1 .ret] ∧
      execute_deferred_task example_platform 3 s1 = .done (s2, 0x400100) ∧
      s2.final_return_address = nullptr ∧ s2.deferred_task_stack = [] ∧
      function_return example_platform 3 0x7ff0 s1 = .done (s3, 0x400100) ∧ s3.Idle :=
  C4_hijack_round_trip example_platform ⟨by decide, by decide, by decide⟩ example_idle
    0x7ff0 0x400100 (.write 0 1 .ret) 3 ⟨rfl, rfl⟩ (by decide) (by decide) (by decide)
    (by decide)

/-! ## C3: the return-value register across the trampoline -/

/-- Whenever the trampoline completes, `%rax` holds the address it jumps to:
the value the hijacked function left there is gone. -/
theorem defer_trampoline_rax (P : Platform) (n : Nat) (s s' : State) (pc : Addr)
    (h : defer_trampoline P n s = .done (s', pc)) : s'.rax = pc := by
  simp only [defer_trampoline, defer_trampoline_with, Run.bind_eq_done] at h
  obtain ⟨r, _, h2⟩ := h
  cases h2
  rfl

/-- Claim C3, evaluated on `function_with_early_return` called from the site
`0x400100` on an idle thread. The function reaches its return instruction with
0 (false) in `%rax` and only the declaration made; when control is back at the
call site the flag has been set by the task (store of 1 to variable 0) and
`%rax` holds `0x400100`, the resume address, not 0. -/
theorem C3_return_register_overwritten :
    (run_body example_platform 0x7ff0 0x400100 function_with_early_return
        (enter 0x7ff0 0x400100 example_idle)).final_rax = some 0 ∧
    (run_body example_platform 0x7ff0 0x400100 function_with_early_return
        (enter 0x7ff0 0x400100 example_idle)).final_trace = some [] ∧
    (call example_platform 2 0x7ff0 0x400100 function_with_early_return
        example_idle).final_trace = some [(0, 1)] ∧
    (call example_platform 2 0x7ff0 0x400100 function_with_early_return
        example_idle).final_rax = some 0x400100 := by
  decide

/-! ## C8: when a declaration aborts -/

/-- Claim C8 fails as stated: in an outermost frame the reported return address
and the word in the return-address slot agree (both are null), the thread is
idle, and the declaration still aborts, on `assert(original_return_address !=
nullptr)`. -/
theorem C8_counterexample :
    example_outermost.final_return_address = nullptr ∧
    example_outermost.mem (0x7ff0 + sizeof_ptr) = 0 ∧
    defer_impl example_platform 0x7ff0 0 .ret example_outermost
      = .aborted example_outermost := by
  refine ⟨rfl, rfl, ?_⟩
  simp [defer_impl, example_outermost, nullptr]

/-- Claim C8, amended. On an idle thread a declaration aborts if and only if
the frame address is null, or the reported return address is null, or the word
in the computed return-address slot differs from the reported return address;
it then aborts in the unmodified state (no hijack installed, no task
appended), and otherwise it succeeds with the hijack installed and the task
appended. A declaration on a thread whose pending resume address is set
always succeeds. -/
theorem C8_declaration_failure_modes (P : Platform) (fp ra : Addr) (f : Code) (s : State) :
    (s.final_return_address = nullptr →
      ((∃ s', defer_impl P fp ra f s = .aborted s') ↔
        (fp = nullptr ∨ ra = nullptr ∨ s.mem (fp + sizeof_ptr) ≠ ra)) ∧
      (∀ s', defer_impl P fp ra f s = .aborted s' → s' = s) ∧
      (¬ (fp = nullptr ∨ ra = nullptr ∨ s.mem (fp + sizeof_ptr) ≠ ra) →
        defer_impl P fp ra f s
          = .done { s with
              deferred_task_stack := s.deferred_task_stack ++ [f]
              final_return_address := ra
              mem := Function.update s.mem (fp + sizeof_ptr) P.defer_trampoline })) ∧
    (s.final_return_address ≠ nullptr →
      defer_impl P fp ra f s
        = .done { s with deferred_task_stack := s.deferred_task_stack ++ [f] }) := by
  refine ⟨fun h => ⟨?_, ?_, ?_⟩, fun h => defer_impl_armed P fp ra f s h⟩
  · by_cases h1 : fp = nullptr
    · simp [defer_impl, h, h1]
    · by_cases h2 : ra = nullptr
      · simp [defer_impl, h, h1, h2]
      · by_cases h3 : s.mem (fp + sizeof_ptr) = ra
        · simp [defer_impl, h, h1, h2, h3]
        · simp [defer_impl, h, h1, h2, h3]
  · intro s' hs'
    simp only [defer_impl, h, if_true] at hs'
    split at hs'
    · cases hs'; rfl
    · split at hs'
      · cases hs'; rfl
      · split at hs'
        · cases hs'; rfl
        · cases hs'
  · intro hn
    simp only [not_or, not_not] at hn
    exact defer_impl_idle P fp ra f s h hn.1 hn.2.1 hn.2.2

/-! ## C2: the task runs at function exit -/

theorem declared_seq (a b : Code) : (a.seq b).declared = a.declared ++ b.declared := by
  induction a with
  | ret => simp [Code.seq, Code.declared]
  | write x v k ih => simpa [Code.seq, Code.declared] using ih
  | peek x k ih => simpa [Code.seq, Code.declared] using ih
  | mov_rax v k ih => simpa [Code.seq, Code.declared] using ih
  | scope_end k ih => simpa [Code.seq, Code.declared] using ih
  | defer t k _ ih => simpa [Code.seq, Code.declared] using ih

theorem stores_seq_plain (ra p : Addr) (a b : Code) (h : a.declared = []) :
    (a.seq b).stores ra p = a.stores ra p ++ b.stores ra p := by
  induction a with
  | ret => simp [Code.seq, Code.stores]
  | write x v k ih => simp [Code.seq, Code.stores, ih (by simpa [Code.declared] using h)]
  | peek x k ih => simp [Code.seq, Code.stores, ih (by simpa [Code.declared] using h)]
  | mov_rax v k ih => simp [Code.seq, Code.stores, ih (by simpa [Code.declared] using h)]
  | scope_end k ih => simp [Code.seq, Code.stores, ih (by simpa [Code.declared] using h)]
  | defer t k _ _ => simp [Code.declared] at h

theorem value_of_append (x : Nat) (a b : List (Nat × Int)) (v : Int)
    (h : value_of x b = some v) : value_of x (a ++ b) = some v := by
  induction a with
  | nil => simpa using h
  | cons y ys ih => obtain ⟨y1, y2⟩ := y; simp [value_of, ih]

/-- Claim C2 fails as stated, in both ways a thread can fail to be idle.
First, `test_variable_capture_logic`, called normally (frame base `0x7fc0`,
return address `0x400200`) on a thread that is inside another frame's hijack
window, returns with only its own store made; the variable holds 10, not the
task's 99, and its task is still queued. Second, called the same way on a
thread whose pending resume address is null but whose registry still holds an
older task that stores 5 to the same variable, it installs a hijack, and its
return runs its task and then the older one: the caller observes the stores
10, 99, 5 and finds 5 in the variable, not the task's 99. -/
theorem C2_counterexample :
    ((call example_platform 5 0x7fc0 0x400200 test_variable_capture_logic
        example_armed).final_trace = some [(0, 10)] ∧
      ((call example_platform 5 0x7fc0 0x400200 test_variable_capture_logic
        example_armed).final_trace.bind fun tr => value_of 0 tr) = some 10 ∧
      ((call example_platform 5 0x7fc0 0x400200 test_variable_capture_logic
        example_armed).state.map fun s => s.deferred_task_stack)
        = some [.write 7 7 .ret, .write 0 99 .ret]) ∧
    (example_draining.final_return_address = nullptr ∧
      (call example_platform 5 0x7fc0 0x400200 test_variable_capture_logic
        example_draining).final_trace = some [(0, 10), (0, 99), (0, 5)] ∧
      ((call example_platform 5 0x7fc0 0x400200 test_variable_capture_logic
        example_draining).final_trace.bind fun tr => value_of 0 tr) = some 5) := by
  decide

/-- Claim C2, amended by the condition that the thread is idle (pending resume
address null and registry empty) when the function is called. A function body that performs the stores of `A`, declares
one task `T`, performs the stores of `B` (closing braces included) and returns
normally, in a frame with non-null base and return address: the declaration
stores nothing and a closing brace runs nothing; at the return instruction
exactly the stores of `A` then `B` have been made and `T` is queued; when
control is back at the call site the trace is `A`, then `B`, then what running
`T` stores, the thread is idle again, and a variable stored to by `T` holds the
value `T` gave it. -/
theorem C2_task_runs_at_function_exit (P : Platform) (hP : P.Sane) (s : State)
    (fp ra : Addr) (A B T : Code) (n : Nat) (hidle : s.Idle) (hfp : fp ≠ nullptr)
    (hra : ra ≠ nullptr) (hA : A.declared = []) (hB : B.declared = [])
    (hn : T.weight < n) :
    (∀ s0 s0', defer_impl P fp ra T s0 = .done s0' → s0'.trace = s0.trace) ∧
    (∀ k s0, run_body P fp ra (.scope_end k) s0 = run_body P fp ra k s0) ∧
    ∃ s1 s2,
      run_body P fp ra (A.seq (.defer T B)) (enter fp ra s) = .done s1 ∧
      s1.trace = s.trace ++ A.stores ra nullptr ++ B.stores ra ra ∧
      s1.deferred_task_stack = [T] ∧
      call P n fp ra (A.seq (.defer T B)) s = .done s2 ∧
      s2.trace = s.trace ++ A.stores ra nullptr ++ B.stores ra ra ++ task_stores P T ∧
      s2.Idle ∧
      ∀ x v, value_of x (task_stores P T) = some v → value_of x s2.trace = some v := by
  obtain ⟨hfin, hreg⟩ := hidle
  have hdecl : (A.seq (.defer T B)).declared = [T] := by
    simp [declared_seq, Code.declared, hA, hB]
  have hne : (A.seq (.defer T B)).declared ≠ [] := by simp [hdecl]
  have hst : (A.seq (.defer T B)).stores ra nullptr
      = A.stores ra nullptr ++ B.stores ra ra := by
    simp [stores_seq_plain ra nullptr A _ hA, Code.stores]
  refine ⟨?_, fun k s0 => rfl, ?_⟩
  · intro s0 s0' h
    exact (defer_impl_done P fp ra T s0 s0' h).1
  · have hbody := run_body_idle P fp ra hfp hra (A.seq (.defer T B)) (enter fp ra s)
      (by simpa [enter] using hfin) (by simp [enter])
    rw [if_neg hne] at hbody
    obtain ⟨s2, h1, h2, h3, h4⟩ := drain_loop_total P hP n
      { s with
        deferred_task_stack := s.deferred_task_stack ++ (A.seq (.defer T B)).declared
        final_return_address := nullptr
        mem := Function.update s.mem (fp + sizeof_ptr) P.defer_trampoline
        trace := s.trace ++ (A.seq (.defer T B)).stores ra nullptr
        rax := (A.seq (.defer T B)).result s.rax
        rsp := (s.rsp + 2 ^ 64 - 8) % 2 ^ 64 } rfl
      (by simp only [hdecl, hreg, List.nil_append, weight_of]; omega)
    have htr : s2.trace
        = s.trace ++ A.stores ra nullptr ++ B.stores ra ra ++ task_stores P T := by
      rw [h4]
      simp only [hdecl, hreg, List.nil_append, hst, task_stores, List.append_assoc]
      rw [lifo_stores_fuel P n (T.weight + 1) [T] (by simp only [weight_of]; omega)
        (by simp only [weight_of]; omega)]
    refine ⟨_, { s2 with rax := ra, rsp := (s2.rsp + 8) % 2 ^ 64 }, hbody, ?_, ?_, ?_,
      htr, ⟨h3, h2⟩, ?_⟩
    · simp [enter, hst]
    · simp [enter, hdecl, hreg]
    · rw [call, call_with_idle P _ fp ra _ s hfin hfp hra hne, h1, Run.bind]
    · intro x v hv
      show value_of x s2.trace = some v
      rw [htr]
      exact value_of_append x _ _ v hv

/-- Claim C2, amended, at the tests `test_basic_defer_logic` (log entries as
values stored to variable 1) and `test_variable_capture_logic` combined: store
`enter`, declare the task that stores 99 to variable 0, store 10 to variable 0,
close a block; the caller finds variable 0 holding 99. -/
theorem C2_witness :
    ∃ s2,
      call example_platform 3 0x7ff0 0x400100
        ((Code.write 1 100 .ret).seq
          (.defer (.write 0 99 .ret) (.write 0 10 (.scope_end .ret)))) example_idle
        = .done s2 ∧
      s2.trace = [(1, 100), (0, 10), (0, 99)] ∧
      value_of 0 s2.trace = some 99 := by
  obtain ⟨_, _, _, s2, _, _, _, h4, h5, _, h7⟩ :=
    C2_task_runs_at_function_exit example_platform ⟨by decide, by decide, by decide⟩
      example_idle 0x7ff0 0x400100 (.write 1 100 .ret) (.write 0 10 (.scope_end .ret))
      (.write 0 99 .ret) 3 ⟨rfl, rfl⟩ (by decide) (by decide) rfl rfl (by decide)
  exact ⟨s2, h4, by rw [h5]; decide, h7 0 99 (by decide)⟩

/-! ## C5: declarations inside a hijack window -/

theorem length_le_weight_of (l : List Code) : l.length ≤ weight_of l := by
  induction l with
  | nil => simp [weight_of]
  | cons t ts ih =>
    have := weight_pos t
    simp only [List.length_cons, weight_of]
    omega

/-- The return instruction of an intercepted frame on a sane build: the
trampoline drains the registry as a stack and control resumes at the pending
address, with the thread idle. -/
theorem function_return_hijacked (P : Platform) (hP : P.Sane) (n : Nat) (fp : Addr)
    (s : State) (hslot : s.mem (fp + sizeof_ptr) = P.defer_trampoline)
    (hw : weight_of s.deferred_task_stack < n) :
    ∃ s', function_return P n fp s = .done (s', s.final_return_address) ∧ s'.Idle ∧
      s'.trace = s.trace ++ lifo_stores P n s.deferred_task_stack ∧
      s'.rax = s.final_return_address := by
  obtain ⟨s1, h1, h2, h3, h4⟩ := execute_deferred_task_total P hP n
    { s with rsp := (s.rsp + 2 ^ 64 - 8) % 2 ^ 64 } hw
  refine ⟨{ s1 with rax := s.final_return_address, rsp := (s1.rsp + 8) % 2 ^ 64 }, ?_,
    ⟨h3, h2⟩, h4, rfl⟩
  simp only [function_return, function_return_with, hslot, if_true, defer_trampoline_with]
  simp only [execute_deferred_task] at h1
  rw [h1, Run.bind]

/-- Claim C5. Let the pending resume address be set, the frame with base `fpo`
being the intercepted one. Every declaration, whatever frame makes it,
succeeds and changes nothing but the registry, to which the task is appended:
the pending address and all of stack memory stay as they are. A function
called meanwhile in another frame `(fp, ra)` returns normally without any task
being run: only its own stores are made, its tasks are appended after the
outer ones, and the only word of memory written is its own return-address
slot, by the call, which still holds `ra` at its return. The intercepted
frame's return then drains the registry as a stack and resumes at the pending
address with the thread idle; for tasks that declare nothing the stores are
those of the whole registry in the reverse of registration order. -/
theorem C5_declarations_inside_a_window (P : Platform) (hP : P.Sane) (s : State)
    (fpo fp ra : Addr) (body : Code) (n : Nat)
    (harmed : s.final_return_address ≠ nullptr)
    (houter : s.mem (fpo + sizeof_ptr) = P.defer_trampoline)
    (hframes : fp ≠ fpo) (hra : ra ≠ P.defer_trampoline)
    (hn : weight_of (s.deferred_task_stack ++ body.declared) < n) :
    (∀ fp' ra' f, defer_impl P fp' ra' f s
      = .done { s with deferred_task_stack := s.deferred_task_stack ++ [f] }) ∧
    ∃ s1 s2,
      call P n fp ra body s = .done s1 ∧
      s1.final_return_address = s.final_return_address ∧
      s1.deferred_task_stack = s.deferred_task_stack ++ body.declared ∧
      s1.trace = s.trace ++ body.stores ra s.final_return_address ∧
      s1.mem = Function.update s.mem (fp + sizeof_ptr) ra ∧
      function_return P n fpo s1 = .done (s2, s.final_return_address) ∧
      s2.Idle ∧
      s2.trace = s1.trace ++ lifo_stores P n (s.deferred_task_stack ++ body.declared) ∧
      ((∀ t ∈ s.deferred_task_stack ++ body.declared, t.declared = []) →
        s2.trace
          = s1.trace ++ stores_in_order (s.deferred_task_stack ++ body.declared).reverse) := by
  refine ⟨fun fp' ra' f => defer_impl_armed P fp' ra' f s harmed, ?_⟩
  have hcall := call_with_armed P (drain_loop P n) fp ra body s harmed hra
  obtain ⟨s2, h1, h2, h3, _⟩ := function_return_hijacked P hP n fpo
    { s with
      deferred_task_stack := s.deferred_task_stack ++ body.declared
      mem := Function.update s.mem (fp + sizeof_ptr) ra
      trace := s.trace ++ body.stores ra s.final_return_address
      rax := body.result s.rax }
    (by
      have hne : fpo + sizeof_ptr ≠ fp + sizeof_ptr := by
        intro h
        exact hframes (Nat.add_right_cancel h).symm
      simpa [Function.update_noteq hne] using houter)
    hn
  refine ⟨_, s2, hcall, rfl, rfl, rfl, rfl, h1, h2, h3, ?_⟩
  intro hplain
  rw [h3, lifo_stores_plain P n _ hplain
    (Nat.lt_of_le_of_lt (length_le_weight_of _) hn)]

/-- Claim C5 on the thread `example_armed` (one task queued by the frame with
base `0x7ff0`): `test_variable_capture_logic` is called in the frame with base
`0x7fc0` from the site `0x400200`. -/
theorem C5_witness :
    (∀ fp' ra' f, defer_impl example_platform fp' ra' f example_armed
      = .done { example_armed with
          deferred_task_stack := example_armed.deferred_task_stack ++ [f] }) ∧
    ∃ s1 s2,
      call example_platform 5 0x7fc0 0x400200 test_variable_capture_logic example_armed
        = .done s1 ∧
      s1.trace = [(0, 10)] ∧
      function_return example_platform 5 0x7ff0 s1 = .done (s2, 0x400100) ∧
      s2.trace = [(0, 10), (0, 99), (7, 7)] := by
  obtain ⟨h0, s1, s2, h1, _, _, h4, _, h6, _, _, h9⟩ :=
    C5_declarations_inside_a_window example_platform ⟨by decide, by decide, by decide⟩
      example_armed 0x7ff0 0x7fc0 0x400200 test_variable_capture_logic 5
      (by decide) (by decide) (by decide) (by decide) (by decide)
  refine ⟨h0, s1, s2, h1, ?_, h6, ?_⟩
  · rw [h4]; decide
  · rw [h9 (by decide), h4]; decide

/-! ## C6: leaving without the return instruction -/

/-- A call of a stored task that starts with a null pending resume address
ends with a null pending resume address, if the loop it may re-enter does. -/
theorem task_call_final_null (P : Platform) (hP : P.Sane) (loop : State → Run State)
    (hloop : ∀ s s', s.final_return_address = nullptr → loop s = .done s' →
      s'.final_return_address = nullptr)
    (t : Code) (s s' : State) (hs : s.final_return_address = nullptr)
    (h : call_with P loop P.task_frame P.task_return t s = .done s') :
    s'.final_return_address = nullptr := by
  by_cases hd : t.declared = []
  · rw [call_with_plain P loop _ _ t s hd hP.task_return_ne_trampoline] at h
    cases h
    exact hs
  · rw [call_with_idle P loop _ _ t s hs hP.task_frame_ne hP.task_return_ne hd,
      Run.bind_eq_done] at h
    obtain ⟨s2, h1, h2⟩ := h
    cases h2
    exact hloop _ s2 rfl h1

theorem drain_loop_final_null (P : Platform) (hP : P.Sane) :
    ∀ (n : Nat) (s s' : State), s.final_return_address = nullptr →
      drain_loop P n s = .done s' → s'.final_return_address = nullptr := by
  intro n
  induction n with
  | zero => intro s s' _ h; simp [drain_loop] at h
  | succ n ih =>
    intro s s' hs h
    rcases nil_or_snoc s.deferred_task_stack with hnil | ⟨rest, t, hsnoc⟩
    · rw [drain_loop_nil P n s hnil] at h
      cases h
      exact hs
    · rw [drain_loop_snoc P n s rest t hsnoc, Run.bind_eq_done] at h
      obtain ⟨s1, h1, h2⟩ := h
      exact ih s1 s'
        (task_call_final_null P hP _ ih t { s with deferred_task_stack := rest } s1 hs h1) h2

/-- Claim C9 fails as stated: Drain is entered with `0x400100` pending and
`probing_task` queued. The task reads a null pending address (stored to
variable 1), and after its own declaration it reads `0x600000`, the return
address of its own frame (stored to variable 2): the declaration installed a
new hijack. Drain completes with an empty registry and returns `0x400100`. -/
theorem C9_counterexample :
    example_probing.final_return_address = 0x400100 ∧
    (execute_deferred_task example_platform 3 example_probing).observe
      = some ([(1, 0), (2, 0x600000)], 0, 0, 0x600000, 0x400100) := by
  decide

/-- Claim C9, amended. Drain saves the pending resume address in a local and
clears the variable before its loop: the back task is called in the state with
that task popped and the pending address null, then the loop goes on, then the
saved address is returned. Every call of a task that starts with a null
pending address ends with one, so each task of the loop starts with the
pending address null. The first declaration a running task makes therefore
installs a hijack on the task's own frame: the pending address becomes the
return address of `task()`, the frame's slot holds the trampoline's address,
and the task is appended. With fuel above the registry's weight Drain
completes, returns the address pending at its start, and leaves the registry
empty and the pending address null. -/
theorem C9_pending_address_cleared_first (P : Platform) (hP : P.Sane) (s : State)
    (rest : List Code) (t : Code) (n : Nat)
    (hreg : s.deferred_task_stack = rest ++ [t])
    (hn : weight_of s.deferred_task_stack < n + 1) :
    execute_deferred_task P (n + 1) s
      = ((call_with P (drain_loop P n) P.task_frame P.task_return t
            { s with deferred_task_stack := rest, final_return_address := nullptr }).bind
          (drain_loop P n)).bind (fun s2 => .done (s2, s.final_return_address)) ∧
    (∀ m u s0 s0', s0.final_return_address = nullptr →
      call_with P (drain_loop P m) P.task_frame P.task_return u s0 = .done s0' →
      s0'.final_return_address = nullptr) ∧
    (∀ u s0, s0.final_return_address = nullptr →
      defer_impl P P.task_frame P.task_return u (enter P.task_frame P.task_return s0)
        = .done { s0 with
            deferred_task_stack := s0.deferred_task_stack ++ [u]
            final_return_address := P.task_return
            mem := Function.update s0.mem (P.task_frame + sizeof_ptr) P.defer_trampoline }) ∧
    ∃ s', execute_deferred_task P (n + 1) s = .done (s', s.final_return_address) ∧
      s'.deferred_task_stack = [] ∧ s'.final_return_address = nullptr := by
  refine ⟨?_, ?_, ?_, ?_⟩
  · rw [execute_deferred_task, execute_deferred_task_with,
      drain_loop_snoc P n { s with final_return_address := nullptr } rest t hreg]
  · intro m u s0 s0' h0 h
    exact task_call_final_null P hP _ (drain_loop_final_null P hP m) u s0 s0' h0 h
  · intro u s0 h0
    rw [defer_impl_idle P _ _ u (enter P.task_frame P.task_return s0)
      (by simpa [enter] using h0) hP.task_frame_ne hP.task_return_ne (by simp [enter])]
    simp [enter]
  · obtain ⟨s', h1, h2, h3, _⟩ := execute_deferred_task_total P hP (n + 1) s hn
    exact ⟨s', h1, h2, h3⟩

/-- Claim C9, amended, on the thread `example_probing`. -/
theorem C9_witness :
    execute_deferred_task example_platform 6 example_probing
      = ((call_with example_platform (drain_loop example_platform 5)
            example_platform.task_frame example_platform.task_return probing_task
            { example_probing with
              deferred_task_stack := [], final_return_address := nullptr }).bind
          (drain_loop example_platform 5)).bind
          (fun s2 => .done (s2, example_probing.final_return_address)) ∧
    ∃ s', execute_deferred_task example_platform 6 example_probing
        = .done (s', example_probing.final_return_address) ∧
      s'.deferred_task_stack = [] ∧ s'.final_return_address = nullptr := by
  obtain ⟨h1, _, _, h4⟩ :=
    C9_pending_address_cleared_first example_platform ⟨by decide, by decide, by decide⟩
      example_probing [] probing_task 5 rfl (by decide)
  exact ⟨h1, h4⟩

/-! ## C10: no task is queued without a pending resume address -/

/-- A drain abandoned by its first task, when that task declares nothing: the
pending resume address is null and the older tasks are still queued. -/
theorem execute_deferred_task_abandoned_plain (P : Platform) (s : State)
    (rest : List Code) (t : Code) (hreg : s.deferred_task_stack = rest ++ [t])
    (ht : t.declared = []) :
    ∃ s', execute_deferred_task_abandoned P s = .done s' ∧
      s'.final_return_address = nullptr ∧ s'.deferred_task_stack = rest ∧
      s'.trace = s.trace ++ t.stores P.task_return nullptr := by
  have h : execute_deferred_task_abandoned P s
      = .done { s with
          deferred_task_stack := rest
          final_return_address := nullptr
          mem := Function.update s.mem (P.task_frame + sizeof_ptr) P.task_return
          trace := s.trace ++ t.stores P.task_return nullptr
          rax := t.result s.rax } := by
    simp only [execute_deferred_task_abandoned, hreg, List.getLast?_concat,
      List.dropLast_concat, call_longjmp]
    rw [run_body_plain P _ _ t _ ht]
    simp [enter]
  exact ⟨_, h, rfl, rfl, rfl⟩

theorem declare_on_done (P : Platform) (tid : Nat) (fp ra : Addr) (f : Code) (w w' : World)
    (h : declare_on P tid fp ra f w = .done w') :
    w'.trace = w.trace ∧
    (w'.threads tid).deferred_task_stack = (w.threads tid).deferred_task_stack ++ [f] ∧
    ∀ k, k ≠ tid → w'.threads k = w.threads k := by
  simp only [declare_on, Run.bind_eq_done] at h
  obtain ⟨s, h1, h2⟩ := h
  cases h2
  obtain ⟨h3, _, h5⟩ := defer_impl_done P fp ra f _ s h1
  refine ⟨h3, ?_, ?_⟩
  · simpa [World.commit, World.view] using h5
  · intro k hk
    simp [World.commit, Function.update_noteq hk]

theorem drain_on_other (P : Platform) (n tid : Nat) (w w' : World) (r : Addr)
    (h : drain_on P n tid w = .done (w', r)) :
    ∀ k, k ≠ tid → w'.threads k = w.threads k := by
  simp only [drain_on, Run.bind_eq_done] at h
  obtain ⟨x, _, h2⟩ := h
  cases h2
  intro k hk
  simp [World.commit, Function.update_noteq hk]

theorem declare_all_done (P : Platform) (ds : List Decl) :
    ∀ w w' : World, declare_all P ds w = .done w' →
      w'.trace = w.trace ∧
      ∀ k, (w'.threads k).deferred_task_stack
        = (w.threads k).deferred_task_stack ++ tasks_of k ds := by
  induction ds with
  | nil =>
    intro w w' h
    simp only [declare_all] at h
    cases h
    exact ⟨rfl, fun k => by simp [tasks_of]⟩
  | cons d ds ih =>
    intro w w' h
    rw [declare_all, Run.bind_eq_done] at h
    obtain ⟨w1, h1, h2⟩ := h
    obtain ⟨h3, h4, h5⟩ := declare_on_done P d.tid d.fp d.ra d.task w w1 h1
    obtain ⟨h6, h7⟩ := ih w1 w' h2
    refine ⟨by rw [h6, h3], fun k => ?_⟩
    rw [h7 k]
    by_cases hk : d.tid = k
    · subst hk
      simp [tasks_of, h4]
    · rw [h5 k (fun e => hk e.symm)]
      simp [tasks_of, hk]

/-- Drain on one thread of a process, on a sane build with fuel above the
weight of that thread's registry. -/
theorem drain_on_total (P : Platform) (hP : P.Sane) (n tid : Nat) (w : World)
    (hw : weight_of (w.threads tid).deferred_task_stack < n) :
    ∃ w', drain_on P n tid w = .done (w', (w.threads tid).final_return_address) ∧
      (w'.view tid).Idle ∧
      w'.trace = w.trace ++ lifo_stores P n (w.threads tid).deferred_task_stack ∧
      ∀ k, k ≠ tid → w'.threads k = w.threads k := by
  obtain ⟨s', h1, h2, h3, h4⟩ := execute_deferred_task_total P hP n (w.view tid) hw
  refine ⟨w.commit tid s', ?_, ?_, ?_, ?_⟩
  · rw [drain_on, h1, Run.bind]
    rfl
  · exact ⟨by simpa [World.commit, World.view] using h3,
      by simpa [World.commit, World.view] using h2⟩
  · simpa [World.commit, World.view] using h4
  · intro k hk
    simp [World.commit, Function.update_noteq hk]

/-- Claim C7. The two thread-local variables exist once per thread. A
declaration or a drain made by one thread leaves every other thread's registry
and pending resume address (and registers) as they were. From a process whose
threads are all idle, after any interleaving `ds` of declarations that pass
their assertions, each thread's registry holds exactly the tasks declared on
that thread, in order, and nothing has been stored; the drain of thread `i`
and then that of another thread `j`, with enough fuel, complete, each making
the stores of its own thread's tasks run as a stack and leaving its thread
idle; for tasks that declare nothing these are the stores of the thread's own
tasks, each once, in the reverse of their declaration order. -/
theorem C7_threads_do_not_interfere (P : Platform) (hP : P.Sane) (w0 w1 : World)
    (ds : List Decl) (i j n : Nat)
    (hidle : ∀ k, (w0.view k).Idle)
    (hdecl : declare_all P ds w0 = .done w1)
    (hij : i ≠ j)
    (hni : weight_of (tasks_of i ds) < n) (hnj : weight_of (tasks_of j ds) < n) :
    (∀ tid fp ra f w w', declare_on P tid fp ra f w = .done w' →
      ∀ k, k ≠ tid → w'.threads k = w.threads k) ∧
    (∀ m tid w w' r, drain_on P m tid w = .done (w', r) →
      ∀ k, k ≠ tid → w'.threads k = w.threads k) ∧
    (∀ k, (w1.threads k).deferred_task_stack = tasks_of k ds) ∧
    w1.trace = w0.trace ∧
    ∃ w2 w3,
      drain_on P n i w1 = .done (w2, (w1.threads i).final_return_address) ∧
      w2.trace = w1.trace ++ lifo_stores P n (tasks_of i ds) ∧
      (w2.view i).Idle ∧
      (∀ k, k ≠ i → w2.threads k = w1.threads k) ∧
      drain_on P n j w2 = .done (w3, (w1.threads j).final_return_address) ∧
      w3.trace = w2.trace ++ lifo_stores P n (tasks_of j ds) ∧
      (w3.view j).Idle ∧ (w3.view i).Idle ∧
      ((∀ d ∈ ds, d.task.declared = []) →
        w3.trace = w0.trace ++ stores_in_order (tasks_of i ds).reverse
          ++ stores_in_order (tasks_of j ds).reverse) := by
  obtain ⟨htr, hregs⟩ := declare_all_done P ds w0 w1 hdecl
  have hreg : ∀ k, (w1.threads k).deferred_task_stack = tasks_of k ds := by
    intro k
    have h0 : (w0.threads k).deferred_task_stack = [] := (hidle k).2
    rw [hregs k, h0, List.nil_append]
  obtain ⟨w2, h1, h2, h3, h4⟩ := drain_on_total P hP n i w1 (by rw [hreg i]; exact hni)
  have hj2 : w2.threads j = w1.threads j := h4 j (fun e => hij e.symm)
  obtain ⟨w3, h5, h6, h7, h8⟩ := drain_on_total P hP n j w2
    (by rw [hj2, hreg j]; exact hnj)
  rw [hreg i] at h3
  rw [hj2, hreg j] at h7
  rw [hj2] at h5
  have hi3 : (w3.view i).Idle := by
    have e : w3.threads i = w2.threads i := h8 i hij
    have h2' : (w2.threads i).final_return_address = nullptr ∧
        (w2.threads i).deferred_task_stack = [] := h2
    show (w3.threads i).final_return_address = nullptr ∧
      (w3.threads i).deferred_task_stack = []
    rw [e]
    exact h2'
  refine ⟨fun tid fp ra f w w' h => (declare_on_done P tid fp ra f w w' h).2.2,
    fun m tid w w' r h => drain_on_other P m tid w w' r h, hreg, htr,
    w2, w3, h1, h3, h2, h4, h5, h7, h6, hi3, ?_⟩
  intro hplain
  have hpl : ∀ k, ∀ t ∈ tasks_of k ds, t.declared = [] := by
    intro k
    clear hdecl hni hnj hreg hregs h3 h7
    induction ds with
    | nil => intro t ht; simp [tasks_of] at ht
    | cons d ds ih =>
      intro t ht
      have hd := hplain d (by simp)
      have ih' := ih (fun e he => hplain e (by simp [he]))
      by_cases hk : d.tid = k
      · simp only [tasks_of, hk, if_true, List.mem_cons] at ht
        rcases ht with rfl | ht
        · exact hd
        · exact ih' t ht
      · simp only [tasks_of, hk, if_false] at ht
        exact ih' t ht
  rw [h7, h3, htr,
    lifo_stores_plain P n _ (hpl i) (Nat.lt_of_le_of_lt (length_le_weight_of _) hni),
    lifo_stores_plain P n _ (hpl j) (Nat.lt_of_le_of_lt (length_le_weight_of _) hnj)]

/-- Claim C7 on `example_schedule`: thread 1 declares the tasks storing 10 and
11, thread 2 in between the task storing 20; thread 1 drains, then thread 2. -/
theorem C7_witness :
    ∃ w1 w2 w3,
      declare_all example_platform example_schedule example_world = .done w1 ∧
      (w1.threads 1).deferred_task_stack = [.write 1 10 .ret, .write 1 11 .ret] ∧
      (w1.threads 2).deferred_task_stack = [.write 2 20 .ret] ∧
      drain_on example_platform 5 1 w1 = .done (w2, (w1.threads 1).final_return_address) ∧
      w2.threads 2 = w1.threads 2 ∧
      drain_on example_platform 5 2 w2 = .done (w3, (w1.threads 2).final_return_address) ∧
      w3.trace = [(1, 11), (1, 10), (2, 20)] := by
  obtain ⟨w1, h1⟩ := Run.exists_done
    (declare_all example_platform example_schedule example_world) (by decide)
  obtain ⟨_, _, h3, _, w2, w3, h5, _, _, h8, h9, _, _, _, h13⟩ :=
    C7_threads_do_not_interfere example_platform ⟨by decide, by decide, by decide⟩
      example_world w1 example_schedule 1 2 5 (fun _ => ⟨rfl, rfl⟩) h1 (by decide)
      (by decide) (by decide)
  refine ⟨w1, w2, w3, h1, ?_, ?_, h5, h8 2 (by decide), h9, ?_⟩
  · rw [h3 1]; decide
  · rw [h3 2]; decide
  · rw [h13 (by decide)]; decide

end Defer
